import Mathlib

/-!
Verification of the scaling data-manager code in
src/algorithms/scaling/data_manager_functions.py and its in-repository test
src/algorithms/scaling/test_basis_and_target_function.py.

Python floats are embedded as rationals, so every arithmetic statement is
exact.  Fallible Python operations (deleting a missing key from a reflection
table, dividing by zero, raising ValueError) are embedded with Except.
Reflection tables are embedded as lists: a list of column names where only
the key set matters, and a list of per-reflection records where row contents
matter.  Collaborator modules that are not part of the source tree
(reflection_weighting, basis_functions, target_function, target_Ih,
Wilson_outlier_test, scale_factor) are modelled from the spec where a claim
needs them; each such definition carries a doc comment saying so.
-/

/-! ## Rational helpers mirroring Python numeric primitives -/

/-- Floor of a rational as an integer.  Integer division in Lean is Euclidean
division, which for a positive denominator is exactly the floor. -/
def ratFloor (q : ℚ) : ℤ := q.num / (q.den : ℤ)

theorem ratFloor_eq (q : ℚ) : ratFloor q = ⌊q⌋ := by
  rw [Rat.floor_def]; rfl

/-- Python int() truncates toward zero. -/
def pyInt (q : ℚ) : ℤ := if 0 ≤ q then ratFloor q else -(ratFloor (-q))

/-- Python modulo for a positive modulus: a - b * floor(a / b). -/
def pyFloorMod (a b : ℚ) : ℚ := a - b * (ratFloor (a / b) : ℚ)

/-- Python division: raises ZeroDivisionError on a zero denominator. -/
def pyDiv (a b : ℚ) : Except String ℚ :=
  if b = 0 then Except.error "ZeroDivisionError" else Except.ok (a / b)

/-- Python max over a list (the source only applies it to nonempty columns). -/
def pyMax (l : List ℚ) : ℚ := l.foldl max (l.headD 0)

/-- Python min over a list (the source only applies it to nonempty columns). -/
def pyMin (l : List ℚ) : ℚ := l.foldl min (l.headD 0)

theorem foldl_max_init_le (l : List ℚ) (a : ℚ) : a ≤ l.foldl max a := by
  induction l generalizing a with
  | nil => simp
  | cons x xs ih => exact le_trans (le_max_left a x) (ih (max a x))

theorem le_foldl_max (l : List ℚ) (a : ℚ) : ∀ v ∈ l, v ≤ l.foldl max a := by
  induction l generalizing a with
  | nil => simp
  | cons x xs ih =>
    intro v hv
    rcases List.mem_cons.mp hv with h | h
    · subst h
      exact le_trans (le_max_right a v) (foldl_max_init_le xs (max a v))
    · exact ih (max a x) v h

theorem le_pyMax (l : List ℚ) : ∀ v ∈ l, v ≤ pyMax l :=
  le_foldl_max l (l.headD 0)

theorem foldl_min_le_init (l : List ℚ) (a : ℚ) : l.foldl min a ≤ a := by
  induction l generalizing a with
  | nil => simp
  | cons x xs ih => exact le_trans (ih (min a x)) (min_le_left a x)

theorem foldl_min_le (l : List ℚ) (a : ℚ) : ∀ v ∈ l, l.foldl min a ≤ v := by
  induction l generalizing a with
  | nil => simp
  | cons x xs ih =>
    intro v hv
    rcases List.mem_cons.mp hv with h | h
    · subst h
      exact le_trans (foldl_min_le_init xs (min a v)) (min_le_right a v)
    · exact ih (min a x) v h

theorem pyMin_le (l : List ℚ) : ∀ v ∈ l, pyMin l ≤ v :=
  foldl_min_le l (l.headD 0)

/-- Three-list pointwise zip, used for elementwise numpy or flex expressions
over three columns of equal length. -/
def zipWith3 (f : ℚ → ℚ → ℚ → ℚ) : List ℚ → List ℚ → List ℚ → List ℚ
  | a :: as, b :: bs, c :: cs => f a b c :: zipWith3 f as bs cs
  | _, _, _ => []

theorem zipWith3_length (f : ℚ → ℚ → ℚ → ℚ) (as bs cs : List ℚ) :
    (zipWith3 f as bs cs).length = min as.length (min bs.length cs.length) := by
  induction as generalizing bs cs with
  | nil => simp [zipWith3]
  | cons a as ih =>
    cases bs with
    | nil => simp [zipWith3]
    | cons b bs =>
      cases cs with
      | nil => simp [zipWith3]
      | cons c cs =>
        simp [zipWith3, ih, Nat.succ_min_succ]

theorem zipWith3_getD (f : ℚ → ℚ → ℚ → ℚ) (as bs cs : List ℚ) (i : ℕ)
    (ha : i < as.length) (hb : i < bs.length) (hc : i < cs.length) :
    (zipWith3 f as bs cs).getD i 0 = f (as.getD i 0) (bs.getD i 0) (cs.getD i 0) := by
  induction as generalizing bs cs i with
  | nil => simp at ha
  | cons a as ih =>
    cases bs with
    | nil => simp at hb
    | cons b bs =>
      cases cs with
      | nil => simp at hc
      | cons c cs =>
        cases i with
        | zero => simp [zipWith3]
        | succ n =>
          simp only [zipWith3, List.getD_cons_succ]
          exact ih bs cs n (by simpa using ha) (by simpa using hb) (by simpa using hc)

/-! ## select_variables_in_range (src lines 584-592)

Returns the boolean selection of the half-open-from-below interval
lower_limit < variable <= upper_limit, mirroring the chained Python
comparison in the source. -/

def select_variables_in_range (variable_array : List ℚ)
    (lower_limit upper_limit : ℚ) : List Bool :=
  variable_array.map (fun v =>
    if lower_limit < v then
      (if v ≤ upper_limit then true else false)
    else false)

theorem select_variables_in_range_length (xs : List ℚ) (lo hi : ℚ) :
    (select_variables_in_range xs lo hi).length = xs.length := by
  simp [select_variables_in_range]

theorem select_variables_in_range_getD (xs : List ℚ) (lo hi : ℚ) (i : ℕ)
    (h : i < xs.length) :
    (select_variables_in_range xs lo hi).getD i false
      = (decide (lo < xs.getD i 0) && decide (xs.getD i 0 ≤ hi)) := by
  induction xs generalizing i with
  | nil => simp at h
  | cons x xs ih =>
    cases i with
    | zero =>
      simp only [select_variables_in_range, List.map_cons, List.getD_cons_zero]
      by_cases h1 : lo < x <;> by_cases h2 : x ≤ hi <;> simp [h1, h2]
    | succ n =>
      simp only [select_variables_in_range, List.map_cons, List.getD_cons_succ]
      exact ih n (by simpa using h)

/-- C10: select_variables_in_range returns a boolean array of the same length
that is true at position i exactly when lower_limit < value and
value <= upper_limit; hence for bin boundaries b1, b2, b3 with b2 <= b3
(so in particular for adjacent intervals of an increasing boundary sequence,
where b2 = b3) no value is selected by both intervals: a value lying exactly
on a shared boundary belongs only to the lower interval. -/
theorem select_variables_in_range_spec (xs : List ℚ) (lo hi : ℚ) :
    ((select_variables_in_range xs lo hi).length = xs.length
      ∧ ∀ i, i < xs.length →
          ((select_variables_in_range xs lo hi).getD i false = true
            ↔ (lo < xs.getD i 0 ∧ xs.getD i 0 ≤ hi)))
      ∧ ∀ b1 b2 b3 b4 : ℚ, b2 ≤ b3 → ∀ i, i < xs.length →
          (select_variables_in_range xs b1 b2).getD i false = true →
          (select_variables_in_range xs b3 b4).getD i false = false := by
  constructor
  · constructor
    · exact select_variables_in_range_length xs lo hi
    · intro i hi2
      rw [select_variables_in_range_getD xs lo hi i hi2]
      simp
  · intro b1 b2 b3 b4 hb i hilen hsel
    rw [select_variables_in_range_getD xs b1 b2 i hilen] at hsel
    simp only [Bool.and_eq_true, decide_eq_true_eq] at hsel
    have h3 : ¬ b3 < xs.getD i 0 := not_lt.mpr (le_trans hsel.2 hb)
    rw [select_variables_in_range_getD xs b3 b4 i hilen, decide_eq_false h3,
      Bool.false_and]

theorem select_variables_in_range_witness :
    ((select_variables_in_range [1, 2, 3] 1 2).length = 3
      ∧ ∀ i, i < ([1, 2, 3] : List ℚ).length →
          ((select_variables_in_range [1, 2, 3] 1 2).getD i false = true
            ↔ ((1:ℚ) < ([1, 2, 3] : List ℚ).getD i 0
                ∧ ([1, 2, 3] : List ℚ).getD i 0 ≤ 2)))
      ∧ ∀ b1 b2 b3 b4 : ℚ, b2 ≤ b3 → ∀ i, i < ([1, 2, 3] : List ℚ).length →
          (select_variables_in_range [1, 2, 3] b1 b2).getD i false = true →
          (select_variables_in_range [1, 2, 3] b3 b4).getD i false = false :=
  select_variables_in_range_spec [1, 2, 3] 1 2

/-! ## Fixed-Ih target residuals (claim C5)

The target_function module is not under src; only the test
test_basis_and_target_function.py is.  The residual rule below is modelled
from the spec. -/

/-- Modelled from the spec: the target_function module (ScalingTargetFixedIH)
is absent from src.  Spec section 4.5 defines the residual as
scaled intensity minus Ih, elementwise, where the scaled intensity is the
raw intensity divided by the inverse scale factor; this reproduces every
numeric assertion of test_target_fixedIh in the in-src test file. -/
def fixedIh_compute_residuals (inverse_scale_factors intensities Ih_values :
    List ℚ) : List ℚ :=
  zipWith3 (fun g I Ih => I / g - Ih) inverse_scale_factors intensities Ih_values

/-- C5 counterexample: with inverse scale factor exactly 0.909 in the middle
position (as the claim states it), the middle residual is 1/909, not 0, so
the residual vector is not [-1, 0, 1]. -/
theorem fixedIh_residuals_claimed_input_fails :
    fixedIh_compute_residuals [1, 909/1000, 1] [10, 10, 12] [11, 11, 11]
      ≠ [-1, 0, 1] := by
  simp only [fixedIh_compute_residuals, zipWith3]
  intro h
  have h2 := congrArg (fun l => List.getD l 1 0) h
  norm_num at h2

/-- C5 amended: the mock table in the in-src test uses 1.0/1.1 (= 10/11) as
the middle inverse scale factor, and with that input the fixed-Ih residuals
are exactly [-1, 0, 1]. -/
theorem fixedIh_residuals_test_input :
    fixedIh_compute_residuals [1, 10/11, 1] [10, 10, 12] [11, 11, 11]
      = [-1, 0, 1] := by
  simp only [fixedIh_compute_residuals, zipWith3]
  norm_num

/-! ## Aimless scale and decay term initialisation (src lines 224-269)

The source computes an adaptive rotation_interval (widening the interval when
the last bin would be under a third full), then unconditionally overwrites it
with the constant 15.0 + 0.001 before using it.  The adaptive computation can
still raise ZeroDivisionError (float(n_phi_bins) / osc_range[1]) when the
oscillation range ends at 0.0, so it is embedded with Except. -/

structure ScaleTermSetup where
  normalised_rotation_angle : List ℚ
  lowest_parameter_value : ℤ
  highest_parameter_value : ℤ
  n_scale_parameters : ℤ
deriving DecidableEq

structure DecayTermSetup where
  normalised_time_values : List ℚ
  lowest_parameter_value : ℤ
  highest_parameter_value : ℤ
  n_decay_parameters : ℤ
deriving DecidableEq

/-- Everything initialise_scale_term computes after the rotation_interval
overwrite: normalised rotation angles and the parameter grid going out to
floor(min) - 2 and floor(max) + 3. -/
def scale_term_setup_of (osc0 one_oscillation_width : ℚ) (z_values : List ℚ) :
    ScaleTermSetup :=
  let rotation_interval : ℚ := 15 + 1/1000
  let normalised := z_values.map
    (fun z => ((z * one_oscillation_width) - (osc0 - 1/1000)) / rotation_interval)
  let highest_parameter_value := ratFloor (pyMax normalised) + 3
  let lowest_parameter_value := ratFloor (pyMin normalised) - 2
  ⟨normalised, lowest_parameter_value, highest_parameter_value,
   highest_parameter_value - lowest_parameter_value + 1⟩

/-- The corresponding computation of initialise_decay_term (identical numbers,
stored under the normalised_time_values name). -/
def decay_term_setup_of (osc0 one_oscillation_width : ℚ) (z_values : List ℚ) :
    DecayTermSetup :=
  let rotation_interval : ℚ := 15 + 1/1000
  let normalised := z_values.map
    (fun z => ((z * one_oscillation_width) - (osc0 - 1/1000)) / rotation_interval)
  let highest_parameter_value := ratFloor (pyMax normalised) + 3
  let lowest_parameter_value := ratFloor (pyMin normalised) - 2
  ⟨normalised, lowest_parameter_value, highest_parameter_value,
   highest_parameter_value - lowest_parameter_value + 1⟩

/-- The adaptive rotation_interval adjustment (src lines 228-233 and 251-256):
its numeric result is discarded by the subsequent overwrite, but the division
by osc_range[1] inside the branch can raise. -/
def adjusted_rotation_interval (osc1 : ℚ) : Except String ℚ :=
  let rotation_interval : ℚ := 15
  if pyFloorMod (osc1 / rotation_interval) 1 < 33/100 then
    let n_phi_bins : ℤ := pyInt (osc1 / rotation_interval)
    match pyDiv (n_phi_bins : ℚ) osc1 with
    | Except.error e => Except.error e
    | Except.ok r => Except.ok (r + 1/1000)
  else Except.ok rotation_interval

def initialise_scale_term (osc0 osc1 one_oscillation_width : ℚ)
    (z_values : List ℚ) : Except String ScaleTermSetup :=
  match adjusted_rotation_interval osc1 with
  | Except.error e => Except.error e
  | Except.ok _ => Except.ok (scale_term_setup_of osc0 one_oscillation_width z_values)

def initialise_decay_term (osc0 osc1 one_oscillation_width : ℚ)
    (z_values : List ℚ) : Except String DecayTermSetup :=
  match adjusted_rotation_interval osc1 with
  | Except.error e => Except.error e
  | Except.ok _ => Except.ok (decay_term_setup_of osc0 one_oscillation_width z_values)

/-- Variant of initialise_scale_term with the adaptive branch removed and the
rotation interval fixed at 15.0 + 0.001 from the start. -/
def initialise_scale_term_fixed (osc0 _osc1 one_oscillation_width : ℚ)
    (z_values : List ℚ) : Except String ScaleTermSetup :=
  Except.ok (scale_term_setup_of osc0 one_oscillation_width z_values)

/-- Variant of initialise_decay_term with the adaptive branch removed. -/
def initialise_decay_term_fixed (osc0 _osc1 one_oscillation_width : ℚ)
    (z_values : List ℚ) : Except String DecayTermSetup :=
  Except.ok (decay_term_setup_of osc0 one_oscillation_width z_values)

/-- C8 counterexample: for the oscillation range (-60, 0) the adaptive branch
is entered (0 / 15 mod 1 = 0 < 0.33) and divides by osc_range[1] = 0, so the
original code raises ZeroDivisionError while the branch-removed version
returns normalised values: the outputs are not identical for every
oscillation range. -/
theorem initialise_decay_term_dead_branch_counterexample :
    initialise_decay_term (-60) 0 1 [1] = Except.error "ZeroDivisionError"
      ∧ initialise_decay_term_fixed (-60) 0 1 [1]
          = Except.ok (decay_term_setup_of (-60) 1 [1])
      ∧ initialise_decay_term (-60) 0 1 [1]
          ≠ initialise_decay_term_fixed (-60) 0 1 [1] := by
  have hcond : pyFloorMod (0 : ℚ) 1 < 33/100 := by
    norm_num [pyFloorMod, ratFloor_eq]
  have h1 : initialise_decay_term (-60) 0 1 [1] = Except.error "ZeroDivisionError" := by
    simp [initialise_decay_term, adjusted_rotation_interval, pyDiv, hcond]
  refine ⟨h1, rfl, ?_⟩
  rw [h1]
  simp [initialise_decay_term_fixed]

/-- C8 amended: whenever the oscillation range end is nonzero (so the division
inside the adaptive branch is defined), initialise_scale_term and
initialise_decay_term produce exactly the outputs of the versions with the
adaptive branch removed and the interval fixed at 15.0 + 0.001; the adaptive
value itself is always discarded. -/
theorem rotation_interval_branch_dead (osc0 osc1 one_oscillation_width : ℚ)
    (z_values : List ℚ) (h : osc1 ≠ 0) :
    initialise_scale_term osc0 osc1 one_oscillation_width z_values
        = initialise_scale_term_fixed osc0 osc1 one_oscillation_width z_values
      ∧ initialise_decay_term osc0 osc1 one_oscillation_width z_values
          = initialise_decay_term_fixed osc0 osc1 one_oscillation_width z_values := by
  have hadj : ∃ r, adjusted_rotation_interval osc1 = Except.ok r := by
    unfold adjusted_rotation_interval
    by_cases hc : pyFloorMod (osc1 / 15) 1 < 33/100
    · simp only [if_pos hc, pyDiv, if_neg h]
      exact ⟨_, rfl⟩
    · simp only [if_neg hc]
      exact ⟨_, rfl⟩
  obtain ⟨r, hr⟩ := hadj
  constructor
  · simp [initialise_scale_term, hr, initialise_scale_term_fixed]
  · simp [initialise_decay_term, hr, initialise_decay_term_fixed]

theorem rotation_interval_branch_dead_witness :
    initialise_scale_term 0 60 1 [1] = initialise_scale_term_fixed 0 60 1 [1]
      ∧ initialise_decay_term 0 60 1 [1] = initialise_decay_term_fixed 0 60 1 [1] :=
  rotation_interval_branch_dead 0 60 1 [1] (by norm_num)

/-! ## XDS decay binning (src lines 386-414) and the grid-margin invariant -/

structure DecayBinSetup where
  normalised_res_values : List ℚ
  lowest_res_param : ℤ
  highest_res_param : ℤ
  n_res_parameters : ℤ
  normalised_time_values : List ℚ
  lowest_time_param : ℤ
  highest_time_param : ℤ
  n_time_parameters : ℤ

/-- Normalisation and grid-extent computation of
XDS_Data_Manager.bin_reflections_decay: resolution and time coordinates are
scaled into bin-index space and the parameter grid goes out one integer
beyond the floor of the extremes on each side (floor(min) - 1 to
floor(max) + 2). -/
def bin_reflections_decay (ndbins nzbins : ℚ) (d_values z_values : List ℚ) :
    DecayBinSetup :=
  let zmax := pyMax z_values + 1/1000
  let zmin := pyMin z_values - 1/1000
  let resmax := 1 / (pyMin d_values)^2 + 1/1000
  let resmin := 1 / (pyMax d_values)^2 - 1/1000
  let one_resbin_width := (resmax - resmin) / ndbins
  let one_time_width := (zmax - zmin) / nzbins
  let normalised_res_values := d_values.map
    (fun d => (1 / d^2 - resmin) / one_resbin_width)
  let highest_res := ratFloor (pyMax normalised_res_values) + 2
  let lowest_res := ratFloor (pyMin normalised_res_values) - 1
  let normalised_time_values := z_values.map
    (fun z => (z - zmin) / one_time_width)
  let highest_time := ratFloor (pyMax normalised_time_values) + 2
  let lowest_time := ratFloor (pyMin normalised_time_values) - 1
  ⟨normalised_res_values, lowest_res, highest_res, highest_res - lowest_res + 1,
   normalised_time_values, lowest_time, highest_time,
   highest_time - lowest_time + 1⟩

/-- Any value of a list sits strictly between grid bounds that extend at
least one whole integer below the floor of the minimum and at least two
above the floor of the maximum, and its floor and floor + 1 are both grid
nodes. -/
theorem floor_margin_bounds (l : List ℚ) (v : ℚ) (hv : v ∈ l) (L H : ℤ)
    (hL : L ≤ ratFloor (pyMin l) - 1) (hH : ratFloor (pyMax l) + 2 ≤ H) :
    (L : ℚ) < v ∧ v < (H : ℚ) ∧ L ≤ ratFloor v ∧ ratFloor v + 1 ≤ H := by
  have hmin : pyMin l ≤ v := pyMin_le l v hv
  have hmax : v ≤ pyMax l := le_pyMax l v hv
  simp only [ratFloor_eq] at hL hH ⊢
  have hfmin : (⌊pyMin l⌋ : ℚ) ≤ pyMin l := Int.floor_le _
  have hfmax : pyMax l < (⌊pyMax l⌋ : ℚ) + 1 := Int.lt_floor_add_one _
  have hLq : (L : ℚ) ≤ (⌊pyMin l⌋ : ℚ) - 1 := by exact_mod_cast hL
  have hHq : (⌊pyMax l⌋ : ℚ) + 2 ≤ (H : ℚ) := by exact_mod_cast hH
  have hm1 : ⌊pyMin l⌋ ≤ ⌊v⌋ := Int.floor_mono hmin
  have hm2 : ⌊v⌋ ≤ ⌊pyMax l⌋ := Int.floor_mono hmax
  refine ⟨by linarith, by linarith, by omega, by omega⟩

theorem initialise_scale_term_ok (osc0 osc1 w : ℚ) (zs : List ℚ)
    (setup : ScaleTermSetup)
    (hok : initialise_scale_term osc0 osc1 w zs = Except.ok setup) :
    setup = scale_term_setup_of osc0 w zs := by
  unfold initialise_scale_term at hok
  cases hadj : adjusted_rotation_interval osc1 with
  | error e => rw [hadj] at hok; exact absurd hok (by simp)
  | ok r => rw [hadj] at hok; simpa using hok.symm

/-- C7: every observation coordinate normalised by
XDS_Data_Manager.bin_reflections_decay (resolution and time axes) and by
aimless_Data_Manager.initialise_scale_term lies strictly inside the
parameter-grid range, and both its floor and floor + 1 are grid nodes, so no
observation is extrapolated beyond the grid and each has defined neighbouring
nodes on both sides. -/
theorem smooth_grid_margin_spec (ndbins nzbins : ℚ) (d_values z_values : List ℚ)
    (osc0 osc1 w : ℚ) (azs : List ℚ) (setup : ScaleTermSetup)
    (hok : initialise_scale_term osc0 osc1 w azs = Except.ok setup) :
    (∀ v ∈ (bin_reflections_decay ndbins nzbins d_values z_values).normalised_res_values,
        (((bin_reflections_decay ndbins nzbins d_values z_values).lowest_res_param : ℚ) < v
          ∧ v < ((bin_reflections_decay ndbins nzbins d_values z_values).highest_res_param : ℚ)
          ∧ (bin_reflections_decay ndbins nzbins d_values z_values).lowest_res_param ≤ ratFloor v
          ∧ ratFloor v + 1 ≤ (bin_reflections_decay ndbins nzbins d_values z_values).highest_res_param))
      ∧ (∀ v ∈ (bin_reflections_decay ndbins nzbins d_values z_values).normalised_time_values,
          (((bin_reflections_decay ndbins nzbins d_values z_values).lowest_time_param : ℚ) < v
            ∧ v < ((bin_reflections_decay ndbins nzbins d_values z_values).highest_time_param : ℚ)
            ∧ (bin_reflections_decay ndbins nzbins d_values z_values).lowest_time_param ≤ ratFloor v
            ∧ ratFloor v + 1 ≤ (bin_reflections_decay ndbins nzbins d_values z_values).highest_time_param))
      ∧ (∀ v ∈ setup.normalised_rotation_angle,
          ((setup.lowest_parameter_value : ℚ) < v
            ∧ v < (setup.highest_parameter_value : ℚ)
            ∧ setup.lowest_parameter_value ≤ ratFloor v
            ∧ ratFloor v + 1 ≤ setup.highest_parameter_value)) := by
  refine ⟨?_, ?_, ?_⟩
  · intro v hv
    exact floor_margin_bounds _ v hv _ _ (le_refl _) (le_refl _)
  · intro v hv
    exact floor_margin_bounds _ v hv _ _ (le_refl _) (le_refl _)
  · have hs := initialise_scale_term_ok osc0 osc1 w azs setup hok
    subst hs
    intro v hv
    have hlow : (scale_term_setup_of osc0 w azs).lowest_parameter_value
        = ratFloor (pyMin (scale_term_setup_of osc0 w azs).normalised_rotation_angle) - 2 := rfl
    have hhigh : (scale_term_setup_of osc0 w azs).highest_parameter_value
        = ratFloor (pyMax (scale_term_setup_of osc0 w azs).normalised_rotation_angle) + 3 := rfl
    exact floor_margin_bounds _ v hv _ _ (by rw [hlow]; omega) (by rw [hhigh]; omega)

theorem smooth_grid_margin_witness :
    (∀ v ∈ (bin_reflections_decay 1 1 [1] [0]).normalised_res_values,
        (((bin_reflections_decay 1 1 [1] [0]).lowest_res_param : ℚ) < v
          ∧ v < ((bin_reflections_decay 1 1 [1] [0]).highest_res_param : ℚ)
          ∧ (bin_reflections_decay 1 1 [1] [0]).lowest_res_param ≤ ratFloor v
          ∧ ratFloor v + 1 ≤ (bin_reflections_decay 1 1 [1] [0]).highest_res_param))
      ∧ (∀ v ∈ (bin_reflections_decay 1 1 [1] [0]).normalised_time_values,
          (((bin_reflections_decay 1 1 [1] [0]).lowest_time_param : ℚ) < v
            ∧ v < ((bin_reflections_decay 1 1 [1] [0]).highest_time_param : ℚ)
            ∧ (bin_reflections_decay 1 1 [1] [0]).lowest_time_param ≤ ratFloor v
            ∧ ratFloor v + 1 ≤ (bin_reflections_decay 1 1 [1] [0]).highest_time_param))
      ∧ (∀ v ∈ (scale_term_setup_of 0 1 [1]).normalised_rotation_angle,
          (((scale_term_setup_of 0 1 [1]).lowest_parameter_value : ℚ) < v
            ∧ v < ((scale_term_setup_of 0 1 [1]).highest_parameter_value : ℚ)
            ∧ (scale_term_setup_of 0 1 [1]).lowest_parameter_value ≤ ratFloor v
            ∧ ratFloor v + 1 ≤ (scale_term_setup_of 0 1 [1]).highest_parameter_value)) := by
  refine smooth_grid_margin_spec 1 1 [1] [0] 0 60 1 [1] (scale_term_setup_of 0 1 [1]) ?_
  have hcond : pyFloorMod ((60:ℚ) / 15) 1 < 33/100 := by
    norm_num [pyFloorMod, ratFloor_eq]
  unfold initialise_scale_term adjusted_rotation_interval
  rw [if_pos hcond]
  unfold pyDiv
  simp only [if_neg (show ¬ (60:ℚ) = 0 by norm_num)]

/-! ## XDS scale composition (src lines 353-384 and 542-558)

The smooth per-reflection component values (calculate_smooth_scales of the
scale_factor module) enter these functions as plain arrays, so they are taken
as list arguments here; numpy exp is an external collaborator and is taken as
a function argument. -/

/-- Final inverse scale factor composition of
XDS_Data_Manager.expand_scales_to_all_reflections: the log parameterization
exponentiates the elementwise sum of the three component values, anything
else (the standard parameterization) takes the elementwise product. -/
def xds_expand_inverse_scale (parameterization : String) (expf : ℚ → ℚ)
    (gscalevalues gdecayvalues gabsvalues : List ℚ) : List ℚ :=
  if parameterization = "log" then
    (zipWith3 (fun a b c => a + b + c) gscalevalues gdecayvalues gabsvalues).map expf
  else
    zipWith3 (fun a b c => a * b * c) gscalevalues gdecayvalues gabsvalues

/-- Constant-component combination of XDS_Data_Manager.set_up_minimisation:
the per-reflection scales of every component other than the active one are
collected and combined columnwise, by product for the standard
parameterization and by sum for log (numpy prod and sum along axis 0); for
any other parameterization name the source leaves constant_g_values unset. -/
def set_up_minimisation_constant_g (parameterization : String)
    (g_parameterisation : List (String × List ℚ)) (param_name : String)
    (n : ℕ) : Option (List ℚ) :=
  let constant_g_values :=
    (g_parameterisation.filter (fun c => c.1 ≠ param_name)).map (fun c => c.2)
  if parameterization = "standard" then
    some (constant_g_values.foldl (fun acc l => List.zipWith (· * ·) acc l)
      (List.replicate n 1))
  else if parameterization = "log" then
    some (constant_g_values.foldl (fun acc l => List.zipWith (· + ·) acc l)
      (List.replicate n 0))
  else none

theorem zipWith_mul_replicate_one (l : List ℚ) (n : ℕ) (h : l.length = n) :
    List.zipWith (· * ·) (List.replicate n 1) l = l := by
  induction l generalizing n with
  | nil => simp
  | cons x xs ih =>
    cases n with
    | zero => simp at h
    | succ m =>
      simp only [List.replicate_succ, List.zipWith_cons_cons, one_mul]
      rw [ih m (by simpa using h)]

theorem zipWith_add_replicate_zero (l : List ℚ) (n : ℕ) (h : l.length = n) :
    List.zipWith (· + ·) (List.replicate n 0) l = l := by
  induction l generalizing n with
  | nil => simp
  | cons x xs ih =>
    cases n with
    | zero => simp at h
    | succ m =>
      simp only [List.replicate_succ, List.zipWith_cons_cons, zero_add]
      rw [ih m (by simpa using h)]

theorem getD_map_lt (f : ℚ → ℚ) (l : List ℚ) (i : ℕ) (h : i < l.length) :
    (l.map f).getD i 0 = f (l.getD i 0) := by
  induction l generalizing i with
  | nil => simp at h
  | cons x xs ih =>
    cases i with
    | zero => simp
    | succ m => simpa using ih m (by simpa using h)

theorem getD_zipWith_mul (as bs : List ℚ) (i : ℕ)
    (ha : i < as.length) (hb : i < bs.length) :
    (List.zipWith (· * ·) as bs).getD i 0 = as.getD i 0 * bs.getD i 0 := by
  induction as generalizing bs i with
  | nil => simp at ha
  | cons a as ih =>
    cases bs with
    | nil => simp at hb
    | cons b bs =>
      cases i with
      | zero => simp
      | succ m => simpa using ih bs m (by simpa using ha) (by simpa using hb)

theorem getD_zipWith_add (as bs : List ℚ) (i : ℕ)
    (ha : i < as.length) (hb : i < bs.length) :
    (List.zipWith (· + ·) as bs).getD i 0 = as.getD i 0 + bs.getD i 0 := by
  induction as generalizing bs i with
  | nil => simp at ha
  | cons a as ih =>
    cases bs with
    | nil => simp at hb
    | cons b bs =>
      cases i with
      | zero => simp
      | succ m => simpa using ih bs m (by simpa using ha) (by simpa using hb)

/-- C2: with the standard parameterization the final inverse scale factor of
expand_scales_to_all_reflections is the elementwise product of the
modulation, decay and absorption component values, with log it is exp of
their elementwise sum; and set_up_minimisation combines the two non-active
component value arrays by the same rule (elementwise product for standard,
elementwise sum for log), shown for each of the three possible active
components of the g_parameterisation registry. -/
theorem xds_scale_composition_spec (expf : ℚ → ℚ)
    (gmod gdec gabs : List ℚ) (n : ℕ)
    (hm : gmod.length = n) (hd : gdec.length = n) (ha : gabs.length = n) :
    (∀ i, i < n →
        (xds_expand_inverse_scale "standard" expf gmod gdec gabs).getD i 0
          = gmod.getD i 0 * gdec.getD i 0 * gabs.getD i 0)
      ∧ (∀ i, i < n →
          (xds_expand_inverse_scale "log" expf gmod gdec gabs).getD i 0
            = expf (gmod.getD i 0 + gdec.getD i 0 + gabs.getD i 0))
      ∧ (set_up_minimisation_constant_g "standard"
            [("g_absorption", gabs), ("g_modulation", gmod), ("g_decay", gdec)]
            "g_decay" n
          = some (List.zipWith (· * ·) gabs gmod)
        ∧ set_up_minimisation_constant_g "log"
            [("g_absorption", gabs), ("g_modulation", gmod), ("g_decay", gdec)]
            "g_decay" n
          = some (List.zipWith (· + ·) gabs gmod))
      ∧ (set_up_minimisation_constant_g "standard"
            [("g_absorption", gabs), ("g_modulation", gmod), ("g_decay", gdec)]
            "g_modulation" n
          = some (List.zipWith (· * ·) gabs gdec)
        ∧ set_up_minimisation_constant_g "log"
            [("g_absorption", gabs), ("g_modulation", gmod), ("g_decay", gdec)]
            "g_modulation" n
          = some (List.zipWith (· + ·) gabs gdec))
      ∧ (set_up_minimisation_constant_g "standard"
            [("g_absorption", gabs), ("g_modulation", gmod), ("g_decay", gdec)]
            "g_absorption" n
          = some (List.zipWith (· * ·) gmod gdec)
        ∧ set_up_minimisation_constant_g "log"
            [("g_absorption", gabs), ("g_modulation", gmod), ("g_decay", gdec)]
            "g_absorption" n
          = some (List.zipWith (· + ·) gmod gdec)) := by
  refine ⟨?_, ?_, ⟨?_, ?_⟩, ⟨?_, ?_⟩, ⟨?_, ?_⟩⟩
  · intro i hi
    have hne : ¬ ("standard" : String) = "log" := by simp
    rw [xds_expand_inverse_scale, if_neg hne]
    exact zipWith3_getD _ gmod gdec gabs i (hm ▸ hi) (hd ▸ hi) (ha ▸ hi)
  · intro i hi
    rw [xds_expand_inverse_scale, if_pos rfl]
    have hlen : i < (zipWith3 (fun a b c => a + b + c) gmod gdec gabs).length := by
      rw [zipWith3_length, hm, hd, ha]; simpa using hi
    rw [getD_map_lt _ _ i hlen]
    rw [zipWith3_getD _ gmod gdec gabs i (hm ▸ hi) (hd ▸ hi) (ha ▸ hi)]
  · simp only [set_up_minimisation_constant_g, List.filter]
    simp only [show (decide ¬("g_absorption" = "g_decay")) = true by simp,
      show (decide ¬("g_modulation" = "g_decay")) = true by simp,
      show (decide ¬("g_decay" = "g_decay")) = false by simp]
    simp only [List.map, List.foldl, if_pos rfl]
    rw [zipWith_mul_replicate_one gabs n ha]
    simp
  · simp only [set_up_minimisation_constant_g, List.filter]
    simp only [show (decide ¬("g_absorption" = "g_decay")) = true by simp,
      show (decide ¬("g_modulation" = "g_decay")) = true by simp,
      show (decide ¬("g_decay" = "g_decay")) = false by simp]
    simp only [List.map, List.foldl]
    rw [zipWith_add_replicate_zero gabs n ha]
    simp
  · simp only [set_up_minimisation_constant_g, List.filter]
    simp only [show (decide ¬("g_absorption" = "g_modulation")) = true by simp,
      show (decide ¬("g_modulation" = "g_modulation")) = false by simp,
      show (decide ¬("g_decay" = "g_modulation")) = true by simp]
    simp only [List.map, List.foldl, if_pos rfl]
    rw [zipWith_mul_replicate_one gabs n ha]
    simp
  · simp only [set_up_minimisation_constant_g, List.filter]
    simp only [show (decide ¬("g_absorption" = "g_modulation")) = true by simp,
      show (decide ¬("g_modulation" = "g_modulation")) = false by simp,
      show (decide ¬("g_decay" = "g_modulation")) = true by simp]
    simp only [List.map, List.foldl]
    rw [zipWith_add_replicate_zero gabs n ha]
    simp
  · simp only [set_up_minimisation_constant_g, List.filter]
    simp only [show (decide ¬("g_absorption" = "g_absorption")) = false by simp,
      show (decide ¬("g_modulation" = "g_absorption")) = true by simp,
      show (decide ¬("g_decay" = "g_absorption")) = true by simp]
    simp only [List.map, List.foldl, if_pos rfl]
    rw [zipWith_mul_replicate_one gmod n hm]
    simp
  · simp only [set_up_minimisation_constant_g, List.filter]
    simp only [show (decide ¬("g_absorption" = "g_absorption")) = false by simp,
      show (decide ¬("g_modulation" = "g_absorption")) = true by simp,
      show (decide ¬("g_decay" = "g_absorption")) = true by simp]
    simp only [List.map, List.foldl]
    rw [zipWith_add_replicate_zero gmod n hm]
    simp

theorem xds_scale_composition_witness :
    (∀ i, i < 1 →
        (xds_expand_inverse_scale "standard" id [2] [3] [5]).getD i 0
          = ([2] : List ℚ).getD i 0 * ([3] : List ℚ).getD i 0 * ([5] : List ℚ).getD i 0)
      ∧ (∀ i, i < 1 →
          (xds_expand_inverse_scale "log" id [2] [3] [5]).getD i 0
            = id (([2] : List ℚ).getD i 0 + ([3] : List ℚ).getD i 0 + ([5] : List ℚ).getD i 0))
      ∧ (set_up_minimisation_constant_g "standard"
            [("g_absorption", [5]), ("g_modulation", [2]), ("g_decay", [3])]
            "g_decay" 1
          = some (List.zipWith (· * ·) [5] [2])
        ∧ set_up_minimisation_constant_g "log"
            [("g_absorption", [5]), ("g_modulation", [2]), ("g_decay", [3])]
            "g_decay" 1
          = some (List.zipWith (· + ·) [5] [2]))
      ∧ (set_up_minimisation_constant_g "standard"
            [("g_absorption", [5]), ("g_modulation", [2]), ("g_decay", [3])]
            "g_modulation" 1
          = some (List.zipWith (· * ·) [5] [3])
        ∧ set_up_minimisation_constant_g "log"
            [("g_absorption", [5]), ("g_modulation", [2]), ("g_decay", [3])]
            "g_modulation" 1
          = some (List.zipWith (· + ·) [5] [3]))
      ∧ (set_up_minimisation_constant_g "standard"
            [("g_absorption", [5]), ("g_modulation", [2]), ("g_decay", [3])]
            "g_absorption" 1
          = some (List.zipWith (· * ·) [2] [3])
        ∧ set_up_minimisation_constant_g "log"
            [("g_absorption", [5]), ("g_modulation", [2]), ("g_decay", [3])]
            "g_absorption" 1
          = some (List.zipWith (· + ·) [2] [3])) :=
  xds_scale_composition_spec id [2] [3] [5] 1 rfl rfl rfl

/-! ## Radial absorption binning (src lines 474-525)

The loop and raise portion of
XDS_Data_Manager.bin_reflections_absorption_radially, taking the precomputed
radial and angular coordinate arrays and the bin boundary lists as input (the
coordinate computation itself uses arccos and square roots, which have no
exact rational embedding). -/

/-- Element of the getD family for any function zipped over two integer
lists. -/
theorem getD_zipWith_int (f : ℤ → ℤ → ℤ) (as bs : List ℤ) (i : ℕ) (d : ℤ)
    (ha : i < as.length) (hb : i < bs.length) :
    (List.zipWith f as bs).getD i d = f (as.getD i d) (bs.getD i d) := by
  induction as generalizing bs i with
  | nil => simp at ha
  | cons a as ih =>
    cases bs with
    | nil => simp at hb
    | cons b bs =>
      cases i with
      | zero => simp
      | succ m => simpa using ih bs m (by simpa using ha) (by simpa using hb)

theorem getD_mem_of_lt (l : List ℤ) (i : ℕ) (h : i < l.length) (d : ℤ) :
    l.getD i d ∈ l := by
  rw [List.getD_eq_getElem?_getD, List.getElem?_eq_getElem h]
  exact List.getElem_mem h

theorem foldl_invariant {α β : Type} (P : β → Prop) (f : β → α → β)
    (l : List α) (b : β) (hb : P b) (hf : ∀ b a, P b → P (f b a)) :
    P (l.foldl f b) := by
  induction l generalizing b with
  | nil => exact hb
  | cons x xs ih => exact ih (f b x) (hf b x hb)

/-- The flex set_selected operation: overwrite with the given value at every
selected position. -/
def set_selected (cur : List ℤ) (sel : List Bool) (value : ℤ) : List ℤ :=
  List.zipWith (fun c s => if s then value else c) cur sel

theorem set_selected_length (cur : List ℤ) (sel : List Bool) (v : ℤ) :
    (set_selected cur sel v).length = min cur.length sel.length := by
  simp [set_selected]

theorem mem_set_selected (cur : List ℤ) (sel : List Bool) (v : ℤ) :
    ∀ x ∈ set_selected cur sel v, x = v ∨ x ∈ cur := by
  induction cur generalizing sel with
  | nil => simp [set_selected]
  | cons c cs ih =>
    cases sel with
    | nil => simp [set_selected]
    | cons s ss =>
      intro x hx
      simp only [set_selected, List.zipWith_cons_cons, List.mem_cons] at hx
      rcases hx with hx | hx
      · cases s with
        | true => exact Or.inl (by simpa using hx)
        | false =>
          right
          simp only [Bool.false_eq_true, if_false] at hx
          simp [hx]
      · rcases ih ss x hx with h | h
        · exact Or.inl h
        · exact Or.inr (List.mem_cons_of_mem _ h)

/-- The double loop filling firstbin_index: for each angular bin i and radial
bin j, positions selected by both interval tests receive the combined index
i * (number of radial bins) + j; everything else keeps the initial -1. -/
def radial_firstbin_index (angular_values radial_values : List ℚ)
    (angular_bins radial_bins : List ℚ) (n : ℕ) : List ℤ :=
  (List.range (angular_bins.length - 1)).foldl (fun fb i =>
    let selection1 := select_variables_in_range angular_values
      (angular_bins.getD i 0) (angular_bins.getD (i+1) 0)
    (List.range (radial_bins.length - 1)).foldl (fun fb2 j =>
      let selection2 := select_variables_in_range radial_values
        (radial_bins.getD j 0) (radial_bins.getD (j+1) 0)
      set_selected fb2 (List.zipWith and selection1 selection2)
        ((i * (radial_bins.length - 1) + j : ℕ) : ℤ)) fb)
    (List.replicate n (-1))

/-- The z loop filling secondbin_index: positions falling in z bin i receive
index i. -/
def radial_secondbin_index (z_values : List ℚ) (z_bins : List ℚ)
    (nzbins : ℕ) (n : ℕ) : List ℤ :=
  (List.range nzbins).foldl (fun sb i =>
    set_selected sb
      (select_variables_in_range z_values (z_bins.getD i 0) (z_bins.getD (i+1) 0))
      (i : ℤ))
    (List.replicate n (-1))

/-- Raise-or-assign step of bin_reflections_absorption_radially: raise
ValueError when any position of either bin index array is still -1,
otherwise combine the two indices into a_bin_index. -/
def bin_reflections_absorption_radially
    (angular_values radial_values z_values : List ℚ)
    (angular_bins radial_bins z_bins : List ℚ) (nzbins : ℕ) :
    Except String (List ℤ) :=
  let n := z_values.length
  let firstbin_index := radial_firstbin_index angular_values radial_values
    angular_bins radial_bins n
  let secondbin_index := radial_secondbin_index z_values z_bins nzbins n
  if 0 < firstbin_index.count (-1) ∨ 0 < secondbin_index.count (-1) then
    Except.error "Unable to fully bin data for absorption in scaling initialisation"
  else
    Except.ok (List.zipWith
      (fun f s => f + s * (((angular_bins.length - 1) * (radial_bins.length - 1) : ℕ) : ℤ))
      firstbin_index secondbin_index)

theorem radial_firstbin_index_invariant (angular_values radial_values : List ℚ)
    (angular_bins radial_bins : List ℚ) (n : ℕ)
    (hang : angular_values.length = n) (hrad : radial_values.length = n) :
    (radial_firstbin_index angular_values radial_values angular_bins radial_bins n).length = n
      ∧ ∀ x ∈ radial_firstbin_index angular_values radial_values angular_bins radial_bins n,
          x = -1 ∨ 0 ≤ x := by
  unfold radial_firstbin_index
  refine foldl_invariant
    (fun fb : List ℤ => fb.length = n ∧ ∀ x ∈ fb, x = -1 ∨ 0 ≤ x) _ _ _
    ⟨by simp, by intro x hx; exact Or.inl (List.eq_of_mem_replicate hx)⟩ ?_
  intro fb i hfb
  refine foldl_invariant
    (fun fb2 : List ℤ => fb2.length = n ∧ ∀ x ∈ fb2, x = -1 ∨ 0 ≤ x) _ _ _ hfb ?_
  intro fb2 j hfb2
  constructor
  · rw [set_selected_length, hfb2.1, List.length_zipWith,
      select_variables_in_range_length, select_variables_in_range_length,
      hang, hrad]
    simp
  · intro x hx
    rcases mem_set_selected _ _ _ x hx with h | h
    · right; rw [h]; positivity
    · exact hfb2.2 x h

theorem radial_secondbin_index_invariant (z_values : List ℚ) (z_bins : List ℚ)
    (nzbins : ℕ) (n : ℕ) (hz : z_values.length = n) :
    (radial_secondbin_index z_values z_bins nzbins n).length = n
      ∧ ∀ x ∈ radial_secondbin_index z_values z_bins nzbins n, x = -1 ∨ 0 ≤ x := by
  unfold radial_secondbin_index
  refine foldl_invariant
    (fun sb : List ℤ => sb.length = n ∧ ∀ x ∈ sb, x = -1 ∨ 0 ≤ x) _ _ _
    ⟨by simp, by intro x hx; exact Or.inl (List.eq_of_mem_replicate hx)⟩ ?_
  intro sb i hsb
  constructor
  · rw [set_selected_length, hsb.1, select_variables_in_range_length, hz]
    simp
  · intro x hx
    rcases mem_set_selected _ _ _ x hx with h | h
    · right; rw [h]; positivity
    · exact hsb.2 x h

/-- C6: bin_reflections_absorption_radially raises the ValueError exactly when
some reflection is left with bin index -1 by the assignment loops, and on a
normal return every reflection has a nonnegative first and second bin index
combined into a_bin_index as firstbin + secondbin * nAngular * nRadial. -/
theorem bin_reflections_absorption_radially_spec
    (angular_values radial_values z_values : List ℚ)
    (angular_bins radial_bins z_bins : List ℚ) (nzbins : ℕ)
    (hang : angular_values.length = z_values.length)
    (hrad : radial_values.length = z_values.length) :
    (bin_reflections_absorption_radially angular_values radial_values z_values
          angular_bins radial_bins z_bins nzbins
        = Except.error "Unable to fully bin data for absorption in scaling initialisation"
      ↔ ((-1) ∈ radial_firstbin_index angular_values radial_values angular_bins
            radial_bins z_values.length
          ∨ (-1) ∈ radial_secondbin_index z_values z_bins nzbins z_values.length))
    ∧ ∀ out, bin_reflections_absorption_radially angular_values radial_values z_values
          angular_bins radial_bins z_bins nzbins = Except.ok out →
        (out.length = z_values.length
          ∧ ∀ i, i < z_values.length →
              (0 ≤ (radial_firstbin_index angular_values radial_values angular_bins
                      radial_bins z_values.length).getD i (-1)
                ∧ 0 ≤ (radial_secondbin_index z_values z_bins nzbins
                        z_values.length).getD i (-1)
                ∧ out.getD i (-1)
                    = (radial_firstbin_index angular_values radial_values angular_bins
                        radial_bins z_values.length).getD i (-1)
                      + (radial_secondbin_index z_values z_bins nzbins
                          z_values.length).getD i (-1)
                        * (((angular_bins.length - 1) * (radial_bins.length - 1) : ℕ) : ℤ))) := by
  have hF := radial_firstbin_index_invariant angular_values radial_values
    angular_bins radial_bins z_values.length hang hrad
  have hS := radial_secondbin_index_invariant z_values z_bins nzbins
    z_values.length rfl
  by_cases hC : 0 < (radial_firstbin_index angular_values radial_values
      angular_bins radial_bins z_values.length).count (-1)
      ∨ 0 < (radial_secondbin_index z_values z_bins nzbins
          z_values.length).count (-1)
  · constructor
    · simp only [bin_reflections_absorption_radially, if_pos hC]
      constructor
      · intro _
        rcases hC with h | h
        · exact Or.inl (List.count_pos_iff.mp h)
        · exact Or.inr (List.count_pos_iff.mp h)
      · intro _; trivial
    · intro out hout
      simp only [bin_reflections_absorption_radially, if_pos hC] at hout
      exact absurd hout (by simp)
  · have hnotmemF : (-1) ∉ radial_firstbin_index angular_values radial_values
        angular_bins radial_bins z_values.length :=
      fun hmem => hC (Or.inl (List.count_pos_iff.mpr hmem))
    have hnotmemS : (-1) ∉ radial_secondbin_index z_values z_bins nzbins
        z_values.length :=
      fun hmem => hC (Or.inr (List.count_pos_iff.mpr hmem))
    constructor
    · simp only [bin_reflections_absorption_radially, if_neg hC]
      constructor
      · intro h; exact absurd h (by simp)
      · intro h; exact absurd h (by simp [hnotmemF, hnotmemS])
    · intro out hout
      simp only [bin_reflections_absorption_radially, if_neg hC] at hout
      injection hout with h
      subst h
      refine ⟨?_, ?_⟩
      · rw [List.length_zipWith, hF.1, hS.1]; simp
      · intro i hi
        have hiF : i < (radial_firstbin_index angular_values radial_values
            angular_bins radial_bins z_values.length).length := by
          rw [hF.1]; exact hi
        have hiS : i < (radial_secondbin_index z_values z_bins nzbins
            z_values.length).length := by
          rw [hS.1]; exact hi
        have hmF := getD_mem_of_lt _ i hiF (-1)
        have hmS := getD_mem_of_lt _ i hiS (-1)
        have h0F : 0 ≤ (radial_firstbin_index angular_values radial_values
            angular_bins radial_bins z_values.length).getD i (-1) := by
          rcases hF.2 _ hmF with h | h
          · exact absurd (h ▸ hmF) hnotmemF
          · exact h
        have h0S : 0 ≤ (radial_secondbin_index z_values z_bins nzbins
            z_values.length).getD i (-1) := by
          rcases hS.2 _ hmS with h | h
          · exact absurd (h ▸ hmS) hnotmemS
          · exact h
        exact ⟨h0F, h0S, getD_zipWith_int _ _ _ i (-1) hiF hiS⟩

theorem bin_reflections_absorption_radially_witness :
    (bin_reflections_absorption_radially [1] [1] [1] [0, 2] [0, 2] [0, 2] 1
        = Except.error "Unable to fully bin data for absorption in scaling initialisation"
      ↔ ((-1) ∈ radial_firstbin_index [1] [1] [0, 2] [0, 2] ([1] : List ℚ).length
          ∨ (-1) ∈ radial_secondbin_index [1] [0, 2] 1 ([1] : List ℚ).length))
    ∧ ∀ out, bin_reflections_absorption_radially [1] [1] [1] [0, 2] [0, 2] [0, 2] 1
          = Except.ok out →
        (out.length = ([1] : List ℚ).length
          ∧ ∀ i, i < ([1] : List ℚ).length →
              (0 ≤ (radial_firstbin_index [1] [1] [0, 2] [0, 2]
                      ([1] : List ℚ).length).getD i (-1)
                ∧ 0 ≤ (radial_secondbin_index [1] [0, 2] 1
                        ([1] : List ℚ).length).getD i (-1)
                ∧ out.getD i (-1)
                    = (radial_firstbin_index [1] [1] [0, 2] [0, 2]
                        ([1] : List ℚ).length).getD i (-1)
                      + (radial_secondbin_index [1] [0, 2] 1
                          ([1] : List ℚ).length).getD i (-1)
                        * (((([0, 2] : List ℚ).length - 1)
                            * (([0, 2] : List ℚ).length - 1) : ℕ) : ℤ))) :=
  bin_reflections_absorption_radially_spec [1] [1] [1] [0, 2] [0, 2] [0, 2] 1 rfl rfl

/-! ## clean_reflection_table (src lines 296-306 and 568-581)

Only the set of column names matters for the round-trip claim, so tables are
embedded as their key lists (in insertion order).  Deleting a key that is not
present raises KeyError, as for any python dict-backed table. -/

/-- Deletion of one column; raises KeyError when the column is absent. -/
def delKey (keys : List String) (k : String) : Except String (List String) :=
  if k ∈ keys then Except.ok (keys.erase k)
  else Except.error ("KeyError: " ++ k)

/-- Sequential deletion of a list of columns, stopping at the first failure
exactly as the python for loop would. -/
def delete_each : List String → List String → Except String (List String)
  | keys, [] => Except.ok keys
  | keys, k :: rest =>
    match delKey keys k with
    | Except.error e => Except.error e
    | Except.ok keys2 => delete_each keys2 rest

/-- Shared shape of both clean_reflection_table implementations: append
inverse_scale_factor to the initial keys, delete from sorted_reflections
every reflection_table key that is not an initial key, then delete the
listed added columns. -/
def clean_reflection_table (initial_keys reflection_table_keys sorted_keys
    added_columns : List String) : Except String (List String) :=
  let initial_keys := initial_keys ++ ["inverse_scale_factor"]
  match delete_each sorted_keys
      (reflection_table_keys.filter (fun k => !(initial_keys.contains k))) with
  | Except.error e => Except.error e
  | Except.ok sorted2 => delete_each sorted2 added_columns

/-- Added-column deletion list of XDS_Data_Manager.clean_reflection_table. -/
def xds_added_columns : List String :=
  ["l_bin_index", "a_bin_index", "xy_bin_index", "h_index",
   "asu_miller_index", "normalised_y_values", "normalised_x_values",
   "normalised_y_abs_values", "normalised_x_abs_values",
   "normalised_time_values", "normalised_res_values", "wilson_outlier_flag",
   "centric_flag"]

/-- Added-column deletion list of aimless_Data_Manager.clean_reflection_table. -/
def aimless_added_columns : List String :=
  ["Ih_values", "h_index", "asu_miller_index", "decay_factor",
   "angular_scale_factor", "normalised_rotation_angle",
   "normalised_time_values", "wilson_outlier_flag", "centric_flag"]

/-- Keys of self.reflection_table after Data_Manager init: the input keys
(captured as initial_keys before any column is added), then x_value, y_value,
z_value, inverse_scale_factor, Ih_values added in init, intensity and
variance added by select_optimal_intensities, and asu_miller_index added by
map_indices_to_asu. -/
def data_manager_init_keys (input_keys : List String) : List String :=
  input_keys ++ ["x_value", "y_value", "z_value", "inverse_scale_factor",
    "Ih_values", "intensity", "variance", "asu_miller_index"]

/-- Keys of sorted_reflections after XDS init and expand: the init keys plus
the normalised coordinate columns added by bin_reflections_decay,
bin_reflections_absorption and bin_reflections_modulation, plus
wilson_outlier_flag (expand_scales_to_all_reflections only rewrites existing
columns).  Neither l_bin_index, a_bin_index nor xy_bin_index is ever added
on this path: only the uncalled bin_reflections_absorption_radially would
add a_bin_index. -/
def xds_sorted_keys (input_keys : List String) : List String :=
  data_manager_init_keys input_keys ++
    ["normalised_res_values", "normalised_time_values",
     "normalised_x_abs_values", "normalised_y_abs_values",
     "normalised_x_values", "normalised_y_values", "wilson_outlier_flag"]

/-- Keys of sorted_reflections for the aimless manager right after init. -/
def aimless_init_sorted_keys (input_keys : List String) : List String :=
  data_manager_init_keys input_keys ++
    ["normalised_rotation_angle", "normalised_time_values",
     "wilson_outlier_flag"]

/-- Keys of sorted_reflections for the aimless manager after init plus the
two columns its expand_scales_to_all_reflections adds. -/
def aimless_sorted_keys (input_keys : List String) : List String :=
  aimless_init_sorted_keys input_keys ++
    ["angular_scale_factor", "decay_factor"]

/-- Column-name effect of aimless_Data_Manager.expand_scales_to_all_reflections:
after adding angular_scale_factor and decay_factor and rewriting
inverse_scale_factor, the method calls self.assign_h_index, but the only
definition of assign_h_index in the source sits inside a commented-out
string block (src lines 115-143), so the call raises AttributeError before
the method returns. -/
def aimless_expand_scales_keys (sorted_keys : List String) :
    Except String (List String) :=
  let _withScaleColumns := sorted_keys ++ ["angular_scale_factor", "decay_factor"]
  Except.error "AttributeError: assign_h_index"

/-- Column deletion under the semantics of the underlying C++ column map,
where erasing an absent key is a no-op (the flex reflection table is part of
the repository but outside src, so both this and the raising semantics of
delKey are settled below). -/
def erase_column (keys : List String) (k : String) : List String := keys.erase k

def delete_each_noraise (keys : List String) (cols : List String) : List String :=
  cols.foldl erase_column keys

/-- Variant of clean_reflection_table under no-op deletion of absent
columns. -/
def clean_reflection_table_noraise (initial_keys reflection_table_keys
    sorted_keys added_columns : List String) : List String :=
  let initial_keys := initial_keys ++ ["inverse_scale_factor"]
  delete_each_noraise
    (delete_each_noraise sorted_keys
      (reflection_table_keys.filter (fun k => !(initial_keys.contains k))))
    added_columns

/-- Input column set of the reflection tables generated by the in-src test
file. -/
def test_reflection_table_keys : List String :=
  ["intensity.prf.value", "intensity.prf.variance", "miller_index", "d",
   "lp", "dqe", "partiality", "xyzobs.px.value", "s1"]

/-- C1 evidence, on the test input column set.  First conjunct: the aimless
round trip never reaches clean_reflection_table, because
expand_scales_to_all_reflections calls the commented-out assign_h_index.
Second and third conjuncts: the deletion lists reference columns that the
executed path never creates (l_bin_index first for XDS) or has already
deleted (Ih_values first for aimless), so under dict-style deletion
clean_reflection_table raises KeyError.  Fourth and fifth conjuncts: under
no-op deletion of absent columns, both clean implementations do return
exactly the initial column set plus inverse_scale_factor (Ih_values is not
retained: the first loop deletes it). -/
theorem clean_reflection_table_round_trip_evidence :
    aimless_expand_scales_keys (aimless_init_sorted_keys test_reflection_table_keys)
      = Except.error "AttributeError: assign_h_index"
    ∧ clean_reflection_table test_reflection_table_keys
        (data_manager_init_keys test_reflection_table_keys)
        (xds_sorted_keys test_reflection_table_keys) xds_added_columns
      = Except.error "KeyError: l_bin_index"
    ∧ clean_reflection_table test_reflection_table_keys
        (data_manager_init_keys test_reflection_table_keys)
        (aimless_sorted_keys test_reflection_table_keys) aimless_added_columns
      = Except.error "KeyError: Ih_values"
    ∧ clean_reflection_table_noraise test_reflection_table_keys
        (data_manager_init_keys test_reflection_table_keys)
        (xds_sorted_keys test_reflection_table_keys) xds_added_columns
      = test_reflection_table_keys ++ ["inverse_scale_factor"]
    ∧ clean_reflection_table_noraise test_reflection_table_keys
        (data_manager_init_keys test_reflection_table_keys)
        (aimless_sorted_keys test_reflection_table_keys) aimless_added_columns
      = test_reflection_table_keys ++ ["inverse_scale_factor"]
    := ⟨rfl, rfl, rfl, rfl, rfl⟩

/-! ## Weighting and extraction of the scaling subset (src lines 54-75) -/

structure ScalingRefl where
  intensity : ℚ
  sigma : ℚ
  d : ℚ
  wilson_outlier_flag : Bool
deriving DecidableEq

/-- Modelled from the spec: the Weighting object of the reflection_weighting
module is absent from src.  Spec section 4.1: the weight defaults to the
inverse variance and is zeroed when I over sigma is below Isigma_min, when
the resolution d is below d_min, or when the reflection is flagged a Wilson
outlier; each test reads only the fields of its own row.  The record carries
sigma rather than variance so the I over sigma cutoff is exact (variance is
sigma squared); a zero sigma yields weight zero rather than a division by
zero. -/
def compute_weight (Isigma_min d_min : ℚ) (r : ScalingRefl) : ℚ :=
  if r.sigma = 0 then 0
  else if r.intensity / r.sigma < Isigma_min then 0
  else if r.d < d_min then 0
  else if r.wilson_outlier_flag then 0
  else 1 / (r.sigma ^ 2)

/-- Data_Manager.update_weights_for_scaling: one weight per table row. -/
def update_weights_for_scaling (Isigma_min d_min : ℚ)
    (reflection_table : List ScalingRefl) : List ℚ :=
  reflection_table.map (compute_weight Isigma_min d_min)

/-- The flex select-by-boolean-array operation. -/
def select_rows {α : Type} : List α → List Bool → List α
  | x :: xs, b :: bs => if b then x :: select_rows xs bs else select_rows xs bs
  | _, _ => []

/-- Data_Manager.extract_reflections_for_scaling: compute weights on the full
table, keep the rows with weight strictly above zero, and recompute the
weights on the kept rows. -/
def extract_reflections_for_scaling (Isigma_min d_min : ℚ)
    (reflection_table : List ScalingRefl) : List ScalingRefl × List ℚ :=
  let weights_for_scaling := update_weights_for_scaling Isigma_min d_min reflection_table
  let sel := weights_for_scaling.map (fun w => decide (0 < w))
  let reflections_for_scaling := select_rows reflection_table sel
  (reflections_for_scaling,
   update_weights_for_scaling Isigma_min d_min reflections_for_scaling)

theorem select_rows_map_eq_filter {α : Type} (p : α → Bool) (tbl : List α) :
    select_rows tbl (tbl.map p) = tbl.filter p := by
  induction tbl with
  | nil => rfl
  | cons x xs ih =>
    simp only [List.map_cons, select_rows, List.filter_cons]
    cases hp : p x <;> simp [hp, ih]

/-- C4: the scaling subset is exactly the rows whose weight is strictly
positive, the returned weights are the row weights recomputed on that subset
(all strictly positive, and unchanged because the weight of a row depends
only on that row), and a zero-weight reflection is never a member of the
subset, hence never reaches the Ih table built from it. -/
theorem extract_reflections_for_scaling_spec (Isigma_min d_min : ℚ)
    (tbl : List ScalingRefl) :
    (extract_reflections_for_scaling Isigma_min d_min tbl).1
        = tbl.filter (fun r => decide (0 < compute_weight Isigma_min d_min r))
      ∧ (extract_reflections_for_scaling Isigma_min d_min tbl).2
          = ((extract_reflections_for_scaling Isigma_min d_min tbl).1).map
              (compute_weight Isigma_min d_min)
      ∧ (∀ r ∈ (extract_reflections_for_scaling Isigma_min d_min tbl).1,
          r ∈ tbl ∧ 0 < compute_weight Isigma_min d_min r)
      ∧ (∀ w ∈ (extract_reflections_for_scaling Isigma_min d_min tbl).2, 0 < w)
      ∧ (∀ r ∈ tbl, compute_weight Isigma_min d_min r = 0 →
          r ∉ (extract_reflections_for_scaling Isigma_min d_min tbl).1) := by
  have hfst : (extract_reflections_for_scaling Isigma_min d_min tbl).1
      = tbl.filter (fun r => decide (0 < compute_weight Isigma_min d_min r)) := by
    simp only [extract_reflections_for_scaling, update_weights_for_scaling,
      List.map_map]
    exact select_rows_map_eq_filter _ tbl
  refine ⟨hfst, rfl, ?_, ?_, ?_⟩
  · intro r hr
    rw [hfst] at hr
    have := List.mem_filter.mp hr
    exact ⟨this.1, by simpa using this.2⟩
  · intro w hw
    have hw2 : w ∈ ((extract_reflections_for_scaling Isigma_min d_min tbl).1).map
        (compute_weight Isigma_min d_min) := hw
    obtain ⟨r, hr, hwr⟩ := List.mem_map.mp hw2
    rw [hfst] at hr
    have := List.mem_filter.mp hr
    rw [← hwr]
    simpa using this.2
  · intro r _ hw0 hrmem
    rw [hfst] at hrmem
    have := List.mem_filter.mp hrmem
    rw [hw0] at this
    simpa using this.2

theorem extract_reflections_for_scaling_witness :
    (extract_reflections_for_scaling 0 1 [⟨10, 1, 2, true⟩, ⟨10, 1, 2, false⟩]).1
        = List.filter (fun r => decide (0 < compute_weight 0 1 r))
            [⟨10, 1, 2, true⟩, ⟨10, 1, 2, false⟩]
      ∧ (extract_reflections_for_scaling 0 1 [⟨10, 1, 2, true⟩, ⟨10, 1, 2, false⟩]).2
          = ((extract_reflections_for_scaling 0 1
                [⟨10, 1, 2, true⟩, ⟨10, 1, 2, false⟩]).1).map (compute_weight 0 1)
      ∧ (∀ r ∈ (extract_reflections_for_scaling 0 1
            [⟨10, 1, 2, true⟩, ⟨10, 1, 2, false⟩]).1,
          r ∈ [(⟨10, 1, 2, true⟩ : ScalingRefl), ⟨10, 1, 2, false⟩]
            ∧ 0 < compute_weight 0 1 r)
      ∧ (∀ w ∈ (extract_reflections_for_scaling 0 1
            [⟨10, 1, 2, true⟩, ⟨10, 1, 2, false⟩]).2, 0 < w)
      ∧ (∀ r ∈ [(⟨10, 1, 2, true⟩ : ScalingRefl), ⟨10, 1, 2, false⟩],
          compute_weight 0 1 r = 0 →
          r ∉ (extract_reflections_for_scaling 0 1
            [⟨10, 1, 2, true⟩, ⟨10, 1, 2, false⟩]).1) :=
  extract_reflections_for_scaling_spec 0 1 [⟨10, 1, 2, true⟩, ⟨10, 1, 2, false⟩]

/-! ## update_for_minimisation (src lines 107-113) -/

/-- Splitting a column into the contiguous symmetry groups described by
h_index_counter_array. -/
def take_groups : List ℕ → List ℚ → List (List ℚ)
  | [], _ => []
  | c :: cs, xs => xs.take c :: take_groups cs (xs.drop c)

def group_sums (counts : List ℕ) (xs : List ℚ) : List ℚ :=
  (take_groups counts xs).map (fun g => g.sum)

/-- Broadcast one value per group back to every member of the group. -/
def broadcast (counts : List ℕ) (vals : List ℚ) : List ℚ :=
  ((counts.zip vals).map (fun cv => List.replicate cv.1 cv.2)).flatten

/-- Modelled from the spec: grouped Ih estimation (the target_Ih module is
absent from src).  Spec section 4.4: per contiguous symmetry group,
Ih = sum(g I w) / sum(g squared w), a group with zero weight sum gets the
sentinel 0, and the group value is broadcast to every member; this matches
the commented-out Data_Manager.calc_Ih left in the source and recomputes
everything from the current scale factors. -/
def calc_Ih (h_index_counter_array : List ℕ)
    (intensities scaleweights scale_factors : List ℚ) : List ℚ :=
  let gsq := List.zipWith (· * ·)
    (List.zipWith (· * ·) scale_factors scale_factors) scaleweights
  let gI := List.zipWith (· * ·)
    (List.zipWith (· * ·) scale_factors intensities) scaleweights
  let sumgsq := group_sums h_index_counter_array gsq
  let sumgI := group_sums h_index_counter_array gI
  let sumweights := group_sums h_index_counter_array scaleweights
  let Ih_array := zipWith3
    (fun sgi ssq sw => if 0 < sw then sgi / ssq else 0) sumgI sumgsq sumweights
  broadcast h_index_counter_array Ih_array

/-- Static inputs of one minimisation pass: everything
update_for_minimisation reads that no call of update_for_minimisation
writes. -/
structure MinimisationData where
  intensities : List ℚ
  scaleweights : List ℚ
  h_index_counter_array : List ℕ
  constant_g_values : List ℚ

/-- Modelled from the spec: the xds basis function (basis_functions module
absent from src).  Spec section 4.3: per reflection, the scale is the product
of the constant combined non-active values with the active component value,
and the derivative block likewise comes from the active component; the
evaluation of the active component at the parameter vector (the smooth
interpolation of spec section 4.2) enters as a function argument. -/
def xds_basis_function (data : MinimisationData)
    (activeValues activeDerivatives : List ℚ → List ℚ)
    (parameters : List ℚ) : List ℚ × List ℚ :=
  (List.zipWith (· * ·) data.constant_g_values (activeValues parameters),
   List.zipWith (· * ·) data.constant_g_values (activeDerivatives parameters))

/-- The pieces of data-manager state that update_for_minimisation writes. -/
structure MinimisationState where
  inverse_scale_factors : List ℚ
  active_derivatives : List ℚ
  Ih_values : List ℚ
deriving DecidableEq

/-- Data_Manager.update_for_minimisation: evaluate the basis function at the
parameter vector, overwrite the inverse scale factors and derivatives, push
the new scales into the Ih table and recompute Ih.  Every written field is a
function of the static data and the parameters alone. -/
def update_for_minimisation (data : MinimisationData)
    (activeValues activeDerivatives : List ℚ → List ℚ)
    (parameters : List ℚ) (_s : MinimisationState) : MinimisationState :=
  let basis_fn := xds_basis_function data activeValues activeDerivatives parameters
  { inverse_scale_factors := basis_fn.1
    active_derivatives := basis_fn.2
    Ih_values := calc_Ih data.h_index_counter_array data.intensities
      data.scaleweights basis_fn.1 }

/-- Modelled from the spec: residuals of the target function (target_function
module absent from src), spec section 4.5: scaled intensity minus Ih,
elementwise. -/
def calculate_residuals (data : MinimisationData) (s : MinimisationState) : List ℚ :=
  zipWith3 (fun g I Ih => I / g - Ih)
    s.inverse_scale_factors data.intensities s.Ih_values

/-- C3: a second call of update_for_minimisation with the same parameter
vector reproduces exactly the state left by the first call, and therefore
the same inverse scale factors, derivatives, Ih values and residuals: the
update overwrites its outputs from static inputs, with no accumulation
across calls. -/
theorem update_for_minimisation_idempotent (data : MinimisationData)
    (activeValues activeDerivatives : List ℚ → List ℚ)
    (parameters : List ℚ) (s : MinimisationState) :
    update_for_minimisation data activeValues activeDerivatives parameters
        (update_for_minimisation data activeValues activeDerivatives parameters s)
      = update_for_minimisation data activeValues activeDerivatives parameters s
    ∧ calculate_residuals data
        (update_for_minimisation data activeValues activeDerivatives parameters
          (update_for_minimisation data activeValues activeDerivatives parameters s))
      = calculate_residuals data
          (update_for_minimisation data activeValues activeDerivatives parameters s) :=
  ⟨rfl, rfl⟩

/-! ## Data_Manager construction (src lines 23-50) and the integrated-only
invariant -/

structure InputRefl where
  intensity_prf_value : ℚ
  intensity_prf_variance : ℚ
  intensity_sum_value : ℚ
  intensity_sum_variance : ℚ
  lp : ℚ
  dqe : ℚ
  d : ℚ
  xyzobs_px_value : ℚ × ℚ × ℚ
  miller_index : ℤ × ℤ × ℤ
  integrated : Bool
deriving DecidableEq

/-- A reflection-table row together with the columns the data manager adds;
base keeps the input row so membership in the input table stays expressible.
The asu column only becomes meaningful in map_indices_to_asu and the wilson
flag in the subclass init. -/
structure WorkRefl where
  base : InputRefl
  x_value : ℚ
  y_value : ℚ
  z_value : ℚ
  inverse_scale_factor : ℚ
  Ih_values : ℚ
  intensity : ℚ
  variance : ℚ
  asu_miller_index : ℤ × ℤ × ℤ
  wilson_outlier_flag : Bool
deriving DecidableEq

/-- Columns added by Data_Manager init before intensity selection: pixel
coordinates split from xyzobs, unit inverse scale factor, zero Ih. -/
def init_columns (r : InputRefl) : WorkRefl :=
  { base := r
    x_value := r.xyzobs_px_value.1
    y_value := r.xyzobs_px_value.2.1
    z_value := r.xyzobs_px_value.2.2
    inverse_scale_factor := 1
    Ih_values := 0
    intensity := 0
    variance := 0
    asu_miller_index := r.miller_index
    wilson_outlier_flag := false }

/-- Data_Manager.select_optimal_intensities on one row: sum or prf intensity
corrected by lp over dqe; the combine option resets itself to prf and
recurses once (src lines 103-105); any other method leaves the intensity
columns unset. -/
def select_optimal_intensities_row (integration_method : String)
    (w : WorkRefl) : WorkRefl :=
  if integration_method = "sum" then
    { w with intensity := w.base.intensity_sum_value * w.base.lp / w.base.dqe,
             variance := w.base.intensity_sum_variance * w.base.lp ^ 2 / w.base.dqe ^ 2 }
  else if integration_method = "prf" ∨ integration_method = "combine" then
    { w with intensity := w.base.intensity_prf_value * w.base.lp / w.base.dqe,
             variance := w.base.intensity_prf_variance * w.base.lp ^ 2 / w.base.dqe ^ 2 }
  else w

/-- The reflection table held by the data manager after construction:
the input rows restricted to those carrying the integrated flag, augmented
with the derived columns and the asu miller index (the asu mapping of cctbx
enters as a function argument). -/
def dm_reflection_table (integration_method : String)
    (asuMap : ℤ × ℤ × ℤ → ℤ × ℤ × ℤ) (refls : List InputRefl) : List WorkRefl :=
  (((refls.filter (fun r => r.integrated)).map init_columns).map
      (select_optimal_intensities_row integration_method)).map
    (fun w => { w with asu_miller_index := asuMap w.base.miller_index })

/-- The sorted reflection table: the reflection table reordered by the packed
asu miller index (the packing function of cctbx enters as an argument; any
sorting algorithm realises the same select-by-permutation). -/
def dm_sorted_reflections (integration_method : String)
    (asuMap : ℤ × ℤ × ℤ → ℤ × ℤ × ℤ) (packKey : ℤ × ℤ × ℤ → ℤ)
    (refls : List InputRefl) : List WorkRefl :=
  List.insertionSort
    (fun a b => packKey a.asu_miller_index ≤ packKey b.asu_miller_index)
    (dm_reflection_table integration_method asuMap refls)

/-- Modelled from the spec: calculate_wilson_outliers (Wilson_outlier_test
module absent from src) flags each sorted row by a per-row statistical test,
taken as a function argument. -/
def dm_sorted_with_flags (integration_method : String)
    (asuMap : ℤ × ℤ × ℤ → ℤ × ℤ × ℤ) (packKey : ℤ × ℤ × ℤ → ℤ)
    (outlierTest : WorkRefl → Bool) (refls : List InputRefl) : List WorkRefl :=
  (dm_sorted_reflections integration_method asuMap packKey refls).map
    (fun w => { w with wilson_outlier_flag := outlierTest w })

/-- The scaling subset extracted from the sorted table by the subclass init:
rows with strictly positive weight, the per-row weight function (spec
section 4.1) entering as an argument. -/
def dm_reflections_for_scaling (integration_method : String)
    (asuMap : ℤ × ℤ × ℤ → ℤ × ℤ × ℤ) (packKey : ℤ × ℤ × ℤ → ℤ)
    (outlierTest : WorkRefl → Bool) (wfun : WorkRefl → ℚ)
    (refls : List InputRefl) : List WorkRefl :=
  let sorted := dm_sorted_with_flags integration_method asuMap packKey outlierTest refls
  select_rows sorted (sorted.map (fun w => decide (0 < wfun w)))

theorem select_optimal_intensities_row_base (integration_method : String)
    (w : WorkRefl) :
    (select_optimal_intensities_row integration_method w).base = w.base := by
  unfold select_optimal_intensities_row
  split_ifs <;> rfl

theorem mem_select_rows {α : Type} (l : List α) (sel : List Bool) :
    ∀ x ∈ select_rows l sel, x ∈ l := by
  induction l generalizing sel with
  | nil => intro x hx; cases sel <;> simp [select_rows] at hx
  | cons a as ih =>
    intro x hx
    cases sel with
    | nil => simp [select_rows] at hx
    | cons b bs =>
      cases b with
      | false => exact List.mem_cons_of_mem _ (ih bs x hx)
      | true =>
        rcases List.mem_cons.mp hx with h | h
        · exact h ▸ List.mem_cons_self _ _
        · exact List.mem_cons_of_mem _ (ih bs x h)

theorem dm_reflection_table_bases (integration_method : String)
    (asuMap : ℤ × ℤ × ℤ → ℤ × ℤ × ℤ) (refls : List InputRefl) :
    (dm_reflection_table integration_method asuMap refls).map (fun w => w.base)
      = refls.filter (fun r => r.integrated) := by
  unfold dm_reflection_table
  rw [List.map_map, List.map_map, List.map_map]
  have : ∀ r : InputRefl,
      ((fun w => w.base) ∘ (fun w => { w with asu_miller_index := asuMap w.base.miller_index })
        ∘ select_optimal_intensities_row integration_method ∘ init_columns) r = r := by
    intro r
    simp only [Function.comp_apply]
    rw [show ∀ w : WorkRefl,
        ({ w with asu_miller_index := asuMap w.base.miller_index } : WorkRefl).base
          = w.base from fun _ => rfl]
    rw [select_optimal_intensities_row_base]
    rfl
  calc (refls.filter (fun r => r.integrated)).map _
      = (refls.filter (fun r => r.integrated)).map id :=
        List.map_congr_left (fun r _ => this r)
    _ = refls.filter (fun r => r.integrated) := List.map_id _

/-- C9: after construction the reflection table is exactly the integrated
subset of the input rows (their base records, in order), sorted_reflections
is a permutation of that table, and every row of sorted_reflections and of
reflections_for_scaling comes from an integrated input row, so no
non-integrated reflection ever enters scaling, weighting or Ih estimation. -/
theorem data_manager_integrated_only (integration_method : String)
    (asuMap : ℤ × ℤ × ℤ → ℤ × ℤ × ℤ) (packKey : ℤ × ℤ × ℤ → ℤ)
    (outlierTest : WorkRefl → Bool) (wfun : WorkRefl → ℚ)
    (refls : List InputRefl) :
    (dm_reflection_table integration_method asuMap refls).map (fun w => w.base)
        = refls.filter (fun r => r.integrated)
      ∧ (∀ w ∈ dm_reflection_table integration_method asuMap refls,
          w.base.integrated = true)
      ∧ (dm_sorted_reflections integration_method asuMap packKey refls).Perm
          (dm_reflection_table integration_method asuMap refls)
      ∧ (∀ w ∈ dm_sorted_reflections integration_method asuMap packKey refls,
          w.base ∈ refls ∧ w.base.integrated = true)
      ∧ (∀ w ∈ dm_reflections_for_scaling integration_method asuMap packKey
            outlierTest wfun refls,
          w.base ∈ refls ∧ w.base.integrated = true) := by
  have h1 := dm_reflection_table_bases integration_method asuMap refls
  have htbl : ∀ w ∈ dm_reflection_table integration_method asuMap refls,
      w.base ∈ refls.filter (fun r => r.integrated) := by
    intro w hw
    rw [← h1]
    exact List.mem_map_of_mem _ hw
  have hperm : (dm_sorted_reflections integration_method asuMap packKey refls).Perm
      (dm_reflection_table integration_method asuMap refls) :=
    List.perm_insertionSort _ _
  have hsorted : ∀ w ∈ dm_sorted_reflections integration_method asuMap packKey refls,
      w.base ∈ refls ∧ w.base.integrated = true := by
    intro w hw
    have hw2 : w ∈ dm_reflection_table integration_method asuMap refls :=
      hperm.mem_iff.mp hw
    have hf := List.mem_filter.mp (htbl w hw2)
    exact ⟨hf.1, hf.2⟩
  refine ⟨h1, ?_, hperm, hsorted, ?_⟩
  · intro w hw
    exact (List.mem_filter.mp (htbl w hw)).2
  · intro w hw
    unfold dm_reflections_for_scaling at hw
    have hw2 : w ∈ dm_sorted_with_flags integration_method asuMap packKey
        outlierTest refls := mem_select_rows _ _ w hw
    unfold dm_sorted_with_flags at hw2
    obtain ⟨w0, hw0, hweq⟩ := List.mem_map.mp hw2
    have hbase : w.base = w0.base := by rw [← hweq]
    rw [hbase]
    exact hsorted w0 hw0

theorem data_manager_integrated_only_witness :
    (dm_reflection_table "prf" id [⟨1, 1, 1, 1, 1, 1, 1, (0, 0, 0), (1, 0, 0), true⟩]).map
          (fun w => w.base)
        = List.filter (fun r => r.integrated)
            [⟨1, 1, 1, 1, 1, 1, 1, (0, 0, 0), (1, 0, 0), true⟩]
      ∧ (∀ w ∈ dm_reflection_table "prf" id
            [⟨1, 1, 1, 1, 1, 1, 1, (0, 0, 0), (1, 0, 0), true⟩],
          w.base.integrated = true)
      ∧ (dm_sorted_reflections "prf" id (fun m => m.1)
            [⟨1, 1, 1, 1, 1, 1, 1, (0, 0, 0), (1, 0, 0), true⟩]).Perm
          (dm_reflection_table "prf" id
            [⟨1, 1, 1, 1, 1, 1, 1, (0, 0, 0), (1, 0, 0), true⟩])
      ∧ (∀ w ∈ dm_sorted_reflections "prf" id (fun m => m.1)
            [⟨1, 1, 1, 1, 1, 1, 1, (0, 0, 0), (1, 0, 0), true⟩],
          w.base ∈ [(⟨1, 1, 1, 1, 1, 1, 1, (0, 0, 0), (1, 0, 0), true⟩ : InputRefl)]
            ∧ w.base.integrated = true)
      ∧ (∀ w ∈ dm_reflections_for_scaling "prf" id (fun m => m.1)
            (fun _ => false) (fun _ => 1)
            [⟨1, 1, 1, 1, 1, 1, 1, (0, 0, 0), (1, 0, 0), true⟩],
          w.base ∈ [(⟨1, 1, 1, 1, 1, 1, 1, (0, 0, 0), (1, 0, 0), true⟩ : InputRefl)]
            ∧ w.base.integrated = true) :=
  data_manager_integrated_only "prf" id (fun m => m.1) (fun _ => false) (fun _ => 1)
    [⟨1, 1, 1, 1, 1, 1, 1, (0, 0, 0), (1, 0, 0), true⟩]
